import Mathlib

/-!
Verification development for the realtime512 core: the cross-recording
unit-matching algorithm (`helpers/unit_matching.py`) and the multi-segment
spike-train assembler (`serve/focus_units_handlers.py`,
`get_spike_train_for_focus_unit_handler`).

Feature vectors and spike times are modelled as rationals (an exact model of
the real-number arithmetic the numpy code performs); labels are integers.
Fallible numpy / sklearn operations are modelled with `Except String`.
-/

namespace Realtime512

/-- Squared Euclidean distance between two feature vectors (rows of a 2-D
numpy array, hence equal length in every actual call). -/
def sqDist (p q : List ℚ) : ℚ :=
  (List.zipWith (fun a b => (a - b) * (a - b)) p q).sum

/-- Scan a pool of candidate indices keeping the index with the smallest key;
on ties the earlier (current) index is kept. -/
def pickMinIdx (key : Nat → ℚ) (cur : Nat) : List Nat → Nat
  | [] => cur
  | i :: rest => pickMinIdx key (if key i < key cur then i else cur) rest

/-- Select the `k` indices with smallest keys from a pool, smallest first;
ties are broken toward the smaller index.  This is a deterministic model of
the neighbor ordering produced by sklearn's exact search. -/
def selectSmallest (key : Nat → ℚ) : Nat → List Nat → List Nat
  | 0, _ => []
  | _ + 1, [] => []
  | k + 1, i :: rest =>
    let m := pickMinIdx key i rest
    m :: selectSmallest key k ((i :: rest).erase m)

/-- Indices of the `k` nearest rows of `data1` to the query point `q`,
nearest first. -/
def kNearest (data1 : List (List ℚ)) (q : List ℚ) (k : Nat) : List Nat :=
  selectSmallest (fun i => sqDist (data1.getD i []) q) k (List.range data1.length)

/-- `nearest_neighbors(data1, data2, n_neighbors)` from
`helpers/unit_matching.py` (lines 35-55): for each point of `data2`, the
indices of its `n_neighbors` nearest points in `data1`.

The error cases are modelled from sklearn's documented behavior, which the
source inherits unchanged: `NearestNeighbors.fit` rejects an empty reference
set, `kneighbors` rejects an empty query set, a non-positive `n_neighbors`,
and `n_neighbors` larger than the fitted sample count
("Expected n_neighbors <= n_samples_fit").  No clamping is performed. -/
def nearest_neighbors (data1 data2 : List (List ℚ)) (n_neighbors : Nat) :
    Except String (List (List Nat)) :=
  if data1.length = 0 then .error "Found array with 0 sample(s) while fitting"
  else if data2.length = 0 then .error "Found array with 0 sample(s) in query"
  else if n_neighbors = 0 then .error "n_neighbors does not take 0, enter integer value"
  else if data1.length < n_neighbors then .error "Expected n_neighbors <= n_samples_fit"
  else .ok (data2.map (fun q => kNearest data1 q n_neighbors))

/-- `np.max` over a 1-D integer array; raises on an empty array. -/
def npMax : List ℤ → Except String ℤ
  | [] => .error "zero-size array to reduction operation maximum"
  | x :: xs => .ok (xs.foldl max x)

/-- Insert an integer into a (sorted) list, keeping ascending order. -/
def insertSorted (x : ℤ) : List ℤ → List ℤ
  | [] => [x]
  | y :: ys => if x ≤ y then x :: y :: ys else y :: insertSorted x ys

/-- Insertion sort of an integer list into ascending order. -/
def sortInts : List ℤ → List ℤ
  | [] => []
  | x :: xs => insertSorted x (sortInts xs)

/-- `np.unique` over a 1-D integer array: the distinct values, sorted
ascending. -/
def npUnique (l : List ℤ) : List ℤ :=
  sortInts l.dedup

/-- `np.argmax` over a 1-D count array: index of the first occurrence of the
maximum value (0 on the empty array, which never occurs in the source). -/
def firstMaxIdx : List Nat → Nat
  | [] => 0
  | x :: xs =>
    let j := firstMaxIdx xs
    if x < xs.getD j 0 then j + 1 else 0

/-- The repeated idiom `unique, counts = np.unique(ls, return_counts=True);
unique[np.argmax(counts)]` (lines 104-105, 129-130, 162-163, 170-171): the
most frequent value of `ls`, ties broken toward the smallest value. -/
def majorityLabel (ls : List ℤ) : ℤ :=
  let u := npUnique ls
  let c := u.map (fun x => ls.count x)
  u.getD (firstMaxIdx c) 0

/-- Tail of Python's `max(l, key=l.count)`: scan left to right, replacing the
current best only on a strictly larger count. -/
def pyMaxAux (full : List ℤ) (cur : ℤ) : List ℤ → ℤ
  | [] => cur
  | x :: xs => pyMaxAux full (if full.count cur < full.count x then x else cur) xs

/-- Python's `max(l, key=l.count)` (lines 108, 133): the first element of `l`
attaining the maximal multiplicity.  The source only calls it on non-empty
lists; the `[]` case (where Python would raise) returns 0. -/
def pyMaxByCount : List ℤ → ℤ
  | [] => 0
  | x :: xs => pyMaxAux (x :: xs) x xs

/-- The spec's description of the event-level vote result: a most frequent
element of `l` that is the smallest among the values attaining the maximal
multiplicity. -/
def IsMinMode (l : List ℤ) (m : ℤ) : Prop :=
  m ∈ l ∧ (∀ x ∈ l, l.count x ≤ l.count m) ∧
    (∀ x ∈ l, l.count x = l.count m → m ≤ x)

/-- The spec's description of the cluster-level consensus result: a most
frequent element of `l` such that every element occurring strictly before
its distinguished occurrence has strictly smaller multiplicity (the first
element reaching the maximal tally in scan order). -/
def IsFirstMode (l : List ℤ) (m : ℤ) : Prop :=
  (∀ x ∈ l, l.count x ≤ l.count m) ∧
    ∃ l1 l2, l = l1 ++ m :: l2 ∧ ∀ x ∈ l1, l.count x < l.count m

/-- `labels_tgt[neighbors]`: numpy fancy indexing of a label array by a list
of indices. -/
def neighborLabels (labels_tgt : List ℤ) (nbrs : List Nat) : List ℤ :=
  nbrs.map (fun j => labels_tgt.getD j 0)

/-- `np.where(labels == k)[0]`: the indices holding label `k`, ascending. -/
def idxWhere (labels : List ℤ) (k : ℤ) : List Nat :=
  (List.range labels.length).filter (fun i => labels.getD i 0 == k)

/-- The event-level best-match label of event `i` (the body shared by
lines 101-105, 126-130, 159-164 and 167-172): the most frequent label among
the event's nearest neighbors in the other recording. -/
def eventVote (nearest : List (List Nat)) (labels_tgt : List ℤ) (i : Nat) : ℤ :=
  majorityLabel (neighborLabels labels_tgt (nearest.getD i []))

/-- The per-event majority votes of one cluster (`cluster_matches`,
lines 99-106 / 124-131): for each event index of the cluster, the most
frequent label among its nearest neighbors in the other recording. -/
def clusterMatches (nearest : List (List Nat)) (labels_tgt : List ℤ)
    (inds : List Nat) : List ℤ :=
  inds.map (eventVote nearest labels_tgt)

/-- One directional pass of `compute_unit_matches` (the loop at lines 94-112,
and identically lines 119-137): for every label `k` in `1..maxL`, if the
cluster is non-empty, store its consensus best match and its confidence
score; untouched slots keep the zero-initialized values.  The numpy arrays
`best_matches_*` / `match_scores_*` (allocated with `np.zeros(maxL + 1)`)
are modelled as functions from the index, each loop iteration writing only
its own slot `k`. -/
def directionalBest (nearest : List (List Nat)) (labels_src labels_tgt : List ℤ)
    (maxL : Nat) : (Nat → ℤ) × (Nat → ℚ) :=
  (List.range' 1 maxL).foldl
    (fun acc (k : Nat) =>
      let inds := idxWhere labels_src (k : ℤ)
      if inds = [] then acc
      else
        let cms := clusterMatches nearest labels_tgt inds
        let bl := pyMaxByCount cms
        let sc : ℚ := (cms.count bl : ℚ) / (inds.length : ℚ)
        (fun j => if j = k then bl else acc.1 j,
         fun j => if j = k then sc else acc.2 j))
    (fun _ => 0, fun _ => 0)

/-- One entry of the `mutual_matches` output list (lines 149-155). -/
structure MutualMatch where
  unit_x : ℤ
  unit_y : ℤ
  score_x_to_y : ℚ
  score_y_to_x : ℚ
  overall_score : ℚ
deriving DecidableEq, Repr

/-- The dictionary returned by `compute_unit_matches` (lines 174-178). -/
structure UnitMatchResult where
  mutual_matches : List MutualMatch
  event_matches_x_to_y : List ℤ
  event_matches_y_to_x : List ℤ
deriving DecidableEq, Repr

/-- The mutuality-filter loop of `compute_unit_matches` (lines 139-155):
for `kx` in `1..max_label_x`, look up `ky = best_matches_x_to_y[kx]`; when
`ky > 0 and best_matches_y_to_x[ky] == kx`, append the match record whose
overall score is the mean of the two directional scores. -/
def mutualMatchesOf (dir_x_to_y dir_y_to_x : (Nat → ℤ) × (Nat → ℚ))
    (max_label_x : Nat) : List MutualMatch :=
  (List.range' 1 max_label_x).foldl
    (fun acc (kx : Nat) =>
      if 0 < dir_x_to_y.1 kx ∧ dir_y_to_x.1 (dir_x_to_y.1 kx).toNat = (kx : ℤ) then
        acc ++ [⟨(kx : ℤ), dir_x_to_y.1 kx, dir_x_to_y.2 kx,
            dir_y_to_x.2 (dir_x_to_y.1 kx).toNat,
            (dir_x_to_y.2 kx + dir_y_to_x.2 (dir_x_to_y.1 kx).toNat) / 2⟩]
      else acc)
    []

/-- The event-level loops of `compute_unit_matches` (lines 157-172): for
every event of the source recording, its majority-vote best-match label in
the target recording. -/
def eventMatches (nearest : List (List Nat)) (labels_src labels_tgt : List ℤ) :
    List ℤ :=
  (List.range labels_src.length).map (eventVote nearest labels_tgt)

/-- `compute_unit_matches(frames_x, labels_x, frames_y, labels_y, n_neighbors)`
from `helpers/unit_matching.py` (lines 58-178), with the two directional
cluster loops factored through `directionalBest`, the mutuality filter
through `mutualMatchesOf` and the event-level loops through `eventMatches`. -/
def compute_unit_matches (frames_x : List (List ℚ)) (labels_x : List ℤ)
    (frames_y : List (List ℚ)) (labels_y : List ℤ) (n_neighbors : Nat) :
    Except String UnitMatchResult := do
  let nearest_y_to_x ← nearest_neighbors frames_x frames_y n_neighbors
  let nearest_x_to_y ← nearest_neighbors frames_y frames_x n_neighbors
  let max_label_y ← npMax labels_y
  let dir_y_to_x := directionalBest nearest_y_to_x labels_y labels_x max_label_y.toNat
  let max_label_x ← npMax labels_x
  let dir_x_to_y := directionalBest nearest_x_to_y labels_x labels_y max_label_x.toNat
  return ⟨mutualMatchesOf dir_x_to_y dir_y_to_x max_label_x.toNat,
          eventMatches nearest_x_to_y labels_x labels_y,
          eventMatches nearest_y_to_x labels_y labels_x⟩

/-! ## The spike-train assembler -/

/-- Per-file duration (lines 393-395 of `serve/focus_units_handlers.py`):
`num_frames = file_size // (2 * n_channels)` (Python integer floor division),
`duration_sec = num_frames / sampling_frequency`. -/
def fileDuration (file_size n_channels sampling_frequency : Nat) : ℚ :=
  ((file_size / (2 * n_channels) : Nat) : ℚ) / (sampling_frequency : ℚ)

/-- One recording file as the assembler sees it: its name, its raw byte size,
and, when both `spike_times.npy` and `spike_labels.npy` exist, the parallel
spike-time / spike-label arrays. -/
structure FileInput where
  bin_filename : String
  file_size : Nat
  sorting : Option (List ℚ × List ℤ)
deriving Repr

/-- A timeline segment (dictionaries appended at lines 430-439, 442-451,
454-463). -/
structure Segment where
  bin_filename : String
  unit_id : Option ℤ
  start_time_offset : ℚ
  end_time_offset : ℚ
  num_spikes : Nat
  spike_times : List ℚ
  is_focus_unit : Bool
  is_gap : Bool
deriving DecidableEq, Repr

/-- The segment built for one file at running offset `off` (one iteration of
the loop at lines 387-465). -/
def mkSegment (n_channels sampling_frequency : Nat) (focus_bin : String)
    (focus_unit : ℤ) (matchMap : String → Option ℤ) (f : FileInput) (off : ℚ) :
    Segment :=
  let duration := fileDuration f.file_size n_channels sampling_frequency
  let segment_end := off + duration
  let is_focus_file := f.bin_filename == focus_bin
  let gap : Segment :=
    { bin_filename := f.bin_filename, unit_id := none,
      start_time_offset := off, end_time_offset := segment_end,
      num_spikes := 0, spike_times := [],
      is_focus_unit := false, is_gap := true }
  if is_focus_file || (matchMap f.bin_filename).isSome then
    let unit_id := if is_focus_file then focus_unit else (matchMap f.bin_filename).getD 0
    match f.sorting with
    | some (spike_times, spike_labels) =>
      let unit_pairs := (spike_times.zip spike_labels).filter (fun p => p.2 == unit_id)
      let offset_spike_times := unit_pairs.map (fun p => p.1 + off)
      { bin_filename := f.bin_filename, unit_id := some unit_id,
        start_time_offset := off, end_time_offset := segment_end,
        num_spikes := unit_pairs.length, spike_times := offset_spike_times,
        is_focus_unit := is_focus_file, is_gap := false }
    | none => gap
  else gap

/-- The segment-building walk of `get_spike_train_for_focus_unit_handler`
(lines 383-467): fold over the chronologically ordered files, threading the
running global offset; returns the segment list, the final offset
(`total_duration_sec`) and the accumulated spike count (`total_spikes`;
gap segments carry `num_spikes = 0`, so adding every segment's count matches
the source, which adds only in the sorted branch). -/
def buildSegments (n_channels sampling_frequency : Nat) (focus_bin : String)
    (focus_unit : ℤ) (matchMap : String → Option ℤ) :
    List FileInput → ℚ → List Segment × ℚ × Nat
  | [], off => ([], off, 0)
  | f :: rest, off =>
    let seg := mkSegment n_channels sampling_frequency focus_bin focus_unit matchMap f off
    let tail := buildSegments n_channels sampling_frequency focus_bin focus_unit matchMap
      rest seg.end_time_offset
    (seg :: tail.1, tail.2.1, seg.num_spikes + tail.2.2)

/-- Default segment used with `List.getD` in statements. -/
def dSeg : Segment :=
  { bin_filename := "", unit_id := none, start_time_offset := 0,
    end_time_offset := 0, num_spikes := 0, spike_times := [],
    is_focus_unit := false, is_gap := true }

/-- Default file descriptor used with `List.getD` in statements. -/
def dFile : FileInput := { bin_filename := "", file_size := 0, sorting := none }

/-- Default match result used with `List.getD` in statements. -/
def dUMR : UnitMatchResult := ⟨[], [], []⟩

/-! ## Basic facts about the assembler -/

lemma mkSegment_start (c r : Nat) (fb : String) (fu : ℤ) (mm : String → Option ℤ)
    (f : FileInput) (off : ℚ) :
    (mkSegment c r fb fu mm f off).start_time_offset = off := by
  unfold mkSegment
  dsimp only
  split
  · split <;> rfl
  · rfl

lemma mkSegment_end (c r : Nat) (fb : String) (fu : ℤ) (mm : String → Option ℤ)
    (f : FileInput) (off : ℚ) :
    (mkSegment c r fb fu mm f off).end_time_offset =
      off + fileDuration f.file_size c r := by
  unfold mkSegment
  dsimp only
  split
  · split <;> rfl
  · rfl

lemma mkSegment_no_sorting (c r : Nat) (fb : String) (fu : ℤ)
    (mm : String → Option ℤ) (f : FileInput) (off : ℚ)
    (hrel : (f.bin_filename == fb || (mm f.bin_filename).isSome) = true)
    (hnone : f.sorting = none) :
    mkSegment c r fb fu mm f off =
      { bin_filename := f.bin_filename, unit_id := none,
        start_time_offset := off,
        end_time_offset := off + fileDuration f.file_size c r,
        num_spikes := 0, spike_times := [],
        is_focus_unit := false, is_gap := true } := by
  unfold mkSegment
  rw [hnone]
  simp [hrel]

lemma mkSegment_sorted (c r : Nat) (fb : String) (fu : ℤ)
    (mm : String → Option ℤ) (f : FileInput) (off : ℚ) (ts : List ℚ) (ls : List ℤ)
    (hc : (f.bin_filename == fb || (mm f.bin_filename).isSome) = true)
    (hs : f.sorting = some (ts, ls)) :
    mkSegment c r fb fu mm f off =
      { bin_filename := f.bin_filename,
        unit_id := some (if f.bin_filename == fb then fu
          else (mm f.bin_filename).getD 0),
        start_time_offset := off,
        end_time_offset := off + fileDuration f.file_size c r,
        num_spikes := ((ts.zip ls).filter (fun p =>
          p.2 == (if f.bin_filename == fb then fu
            else (mm f.bin_filename).getD 0))).length,
        spike_times := ((ts.zip ls).filter (fun p =>
          p.2 == (if f.bin_filename == fb then fu
            else (mm f.bin_filename).getD 0))).map (fun p => p.1 + off),
        is_focus_unit := (f.bin_filename == fb), is_gap := false } := by
  unfold mkSegment
  dsimp only
  rw [hs, hc]
  simp

lemma mkSegment_nongap (c r : Nat) (fb : String) (fu : ℤ)
    (mm : String → Option ℤ) (f : FileInput) (off : ℚ)
    (h : (mkSegment c r fb fu mm f off).is_gap = false) :
    ∃ ts ls u, f.sorting = some (ts, ls) ∧
      (mkSegment c r fb fu mm f off).unit_id = some u ∧
      (mkSegment c r fb fu mm f off).spike_times =
        ((ts.zip ls).filter (fun p => p.2 == u)).map (fun p => p.1 + off) ∧
      (mkSegment c r fb fu mm f off).start_time_offset = off := by
  rcases hs : f.sorting with _ | ⟨ts, ls⟩
  · exfalso
    unfold mkSegment at h
    rw [hs] at h
    dsimp only at h
    split at h <;> simp at h
  · by_cases hc : (f.bin_filename == fb || (mm f.bin_filename).isSome) = true
    · rw [mkSegment_sorted c r fb fu mm f off ts ls hc hs]
      exact ⟨ts, ls,
        (if f.bin_filename == fb then fu else (mm f.bin_filename).getD 0),
        rfl, rfl, rfl, rfl⟩
    · exfalso
      unfold mkSegment at h
      dsimp only at h
      rw [Bool.not_eq_true] at hc
      rw [hc] at h
      simp at h

lemma buildSegments_length (c r : Nat) (fb : String) (fu : ℤ)
    (mm : String → Option ℤ) :
    ∀ (files : List FileInput) (off : ℚ),
      (buildSegments c r fb fu mm files off).1.length = files.length
  | [], _ => rfl
  | _ :: rest, off => by
    simp only [buildSegments, List.length_cons]
    rw [buildSegments_length c r fb fu mm rest]

lemma buildSegments_head_start (c r : Nat) (fb : String) (fu : ℤ)
    (mm : String → Option ℤ) (files : List FileInput) (off : ℚ)
    (h : files ≠ []) :
    ((buildSegments c r fb fu mm files off).1.getD 0 dSeg).start_time_offset
      = off := by
  cases files with
  | nil => exact absurd rfl h
  | cons f rest =>
    simp only [buildSegments, List.getD_cons_zero]
    exact mkSegment_start c r fb fu mm f off

lemma buildSegments_chain (c r : Nat) (fb : String) (fu : ℤ)
    (mm : String → Option ℤ) :
    ∀ (files : List FileInput) (off : ℚ) (i : Nat),
      i + 1 < (buildSegments c r fb fu mm files off).1.length →
      (((buildSegments c r fb fu mm files off).1.getD i dSeg).end_time_offset
        = ((buildSegments c r fb fu mm files off).1.getD (i + 1) dSeg).start_time_offset)
  | [], _, i, h => by simp [buildSegments] at h
  | f :: rest, off, 0, h => by
    rw [buildSegments_length] at h
    simp only [List.length_cons] at h
    simp only [buildSegments, List.getD_cons_zero, List.getD_cons_succ]
    rw [buildSegments_head_start]
    intro hnil
    rw [hnil] at h
    simp at h
  | f :: rest, off, i + 1, h => by
    simp only [buildSegments, List.getD_cons_succ]
    apply buildSegments_chain c r fb fu mm rest
    simp only [buildSegments, List.length_cons] at h
    omega

lemma buildSegments_end (c r : Nat) (fb : String) (fu : ℤ)
    (mm : String → Option ℤ) :
    ∀ (files : List FileInput) (off : ℚ) (i : Nat), i < files.length →
      ((buildSegments c r fb fu mm files off).1.getD i dSeg).end_time_offset
        = ((buildSegments c r fb fu mm files off).1.getD i dSeg).start_time_offset
          + fileDuration (files.getD i dFile).file_size c r
  | [], _, i, h => by simp at h
  | f :: rest, off, 0, _ => by
    simp only [buildSegments, List.getD_cons_zero]
    rw [mkSegment_start, mkSegment_end]
  | f :: rest, off, i + 1, h => by
    simp only [buildSegments, List.getD_cons_succ]
    exact buildSegments_end c r fb fu mm rest _ i (by simpa using h)

lemma buildSegments_last (c r : Nat) (fb : String) (fu : ℤ)
    (mm : String → Option ℤ) :
    ∀ (files : List FileInput) (off : ℚ), files ≠ [] →
      ((buildSegments c r fb fu mm files off).1.getLastD dSeg).end_time_offset
        = (buildSegments c r fb fu mm files off).2.1
  | [], _, h => absurd rfl h
  | [f], off, _ => by
    simp [buildSegments]
  | f :: g :: rest, off, _ => by
    have ih := buildSegments_last c r fb fu mm (g :: rest)
      ((mkSegment c r fb fu mm f off).end_time_offset) (by simp)
    simp only [buildSegments] at ih ⊢
    rw [List.getLastD_cons]
    rw [List.getLastD_eq_getLast?] at ih ⊢
    cases hq : ((buildSegments c r fb fu mm rest
        ((mkSegment c r fb fu mm g
          ((mkSegment c r fb fu mm f off).end_time_offset)).end_time_offset)).1) with
    | nil => simpa [hq] using ih
    | cons a l => simpa [hq] using ih

lemma buildSegments_getD_mk (c r : Nat) (fb : String) (fu : ℤ)
    (mm : String → Option ℤ) :
    ∀ (files : List FileInput) (off : ℚ) (i : Nat), i < files.length →
      ∃ o, (buildSegments c r fb fu mm files off).1.getD i dSeg
        = mkSegment c r fb fu mm (files.getD i dFile) o
  | [], _, i, h => by simp at h
  | f :: rest, off, 0, _ => ⟨off, by simp [buildSegments]⟩
  | f :: rest, off, i + 1, h => by
    simp only [buildSegments, List.getD_cons_succ]
    exact buildSegments_getD_mk c r fb fu mm rest _ i (by simpa using h)

lemma natCast_div_eq_div_iff (a b : Nat) (hb : 0 < b) :
    ((a / b : Nat) : ℚ) = (a : ℚ) / (b : ℚ) ↔ b ∣ a := by
  constructor
  · intro h
    have hb' : ((b : Nat) : ℚ) ≠ 0 := Nat.cast_ne_zero.mpr hb.ne'
    have h2 : ((a / b : Nat) : ℚ) * ((b : Nat) : ℚ) = ((a : Nat) : ℚ) := by
      rw [h, div_mul_cancel₀ _ hb']
    have h3 : (a / b) * b = a := by exact_mod_cast h2
    have h4 : b * (a / b) + a % b = a := Nat.div_add_mod a b
    have h5 : b * (a / b) = a := by rw [mul_comm]; exact h3
    exact Nat.dvd_of_mod_eq_zero (by omega)
  · intro h
    exact Nat.cast_div h (Nat.cast_ne_zero.mpr hb.ne')

lemma fileDuration_exact_iff (s c r : Nat) (hc : 0 < c) (hr : 0 < r) :
    fileDuration s c r = (s : ℚ) / ((2 * c : Nat) : ℚ) / (r : ℚ) ↔ (2 * c) ∣ s := by
  have hr' : ((r : Nat) : ℚ) ≠ 0 := Nat.cast_ne_zero.mpr hr.ne'
  unfold fileDuration
  constructor
  · intro h
    have h2 : ((s / (2 * c) : Nat) : ℚ) = (s : ℚ) / ((2 * c : Nat) : ℚ) := by
      have h3 := congrArg (fun z : ℚ => z * (r : ℚ)) h
      simpa [div_mul_cancel₀ _ hr'] using h3
    exact (natCast_div_eq_div_iff s (2 * c) (by omega)).1 h2
  · intro h
    rw [(natCast_div_eq_div_iff s (2 * c) (by omega)).2 h]

/-! ## Claim theorems about the assembler -/

/-- C2 counterexample: the claim says the contributed duration is computed
with exact division of the byte size for any byte size.  For byte size 3,
one channel and sample rate 1, the code's floor division gives 1 second,
while exact division gives 3/2 seconds. -/
theorem C2_counterexample :
    fileDuration 3 1 1 ≠ (3 : ℚ) / ((2 * 1 : Nat) : ℚ) / ((1 : Nat) : ℚ) := by
  norm_num [fileDuration]

/-- C2 (amended): for every recording file walked by the spike-train
assembler, the duration contributed to the global timeline equals
`⌊byte_size / (2 × channel_count)⌋ / sample_rate` (Python floor division of
the byte size), and this coincides with the exact-division formula
`(byte_size / (2 × channel_count)) / sample_rate` exactly when
`2 × channel_count` divides the byte size. -/
theorem C2_duration_floor_division (c r : Nat) (hc : 0 < c) (hr : 0 < r) :
    (∀ (fb : String) (fu : ℤ) (mm : String → Option ℤ)
       (files : List FileInput) (i : Nat), i < files.length →
      ((buildSegments c r fb fu mm files 0).1.getD i dSeg).end_time_offset =
        ((buildSegments c r fb fu mm files 0).1.getD i dSeg).start_time_offset +
          fileDuration (files.getD i dFile).file_size c r) ∧
    (∀ s : Nat, fileDuration s c r = ((s / (2 * c) : Nat) : ℚ) / (r : ℚ)) ∧
    (∀ s : Nat,
      fileDuration s c r = (s : ℚ) / ((2 * c : Nat) : ℚ) / (r : ℚ) ↔ (2 * c) ∣ s) :=
  ⟨fun fb fu mm files i hi => buildSegments_end c r fb fu mm files 0 i hi,
   fun _ => rfl,
   fun s => fileDuration_exact_iff s c r hc hr⟩

/-- C2 witness: at channel count 1 and sample rate 1, a 4-byte file
contributes exactly 2 seconds (4 bytes = 2 frames), and 4 is divisible by
2 × 1. -/
theorem C2_duration_floor_division_witness :
    (0 : Nat) < 1 ∧ fileDuration 4 1 1 = (4 : ℚ) / ((2 * 1 : Nat) : ℚ) / ((1 : Nat) : ℚ) :=
  ⟨by decide,
   ((C2_duration_floor_division 1 1 (by decide) (by decide)).2.2 4).2 (by decide)⟩

/-- C7: the segment list is contiguous: one segment per file, the first
segment starts at offset 0, each segment's end offset equals the next
segment's start offset, every segment's end offset is its start offset plus
its file's duration (the running offset advances by the duration whether or
not the segment is a gap), and the reported total duration is the final
running offset (0 for an empty session, the last segment's end otherwise). -/
theorem C7_contiguous_timeline (c r : Nat) (fb : String) (fu : ℤ)
    (mm : String → Option ℤ) (files : List FileInput) :
    (buildSegments c r fb fu mm files 0).1.length = files.length ∧
    ((buildSegments c r fb fu mm files 0).1 ≠ [] →
      ((buildSegments c r fb fu mm files 0).1.getD 0 dSeg).start_time_offset = 0) ∧
    (∀ i, i + 1 < (buildSegments c r fb fu mm files 0).1.length →
      ((buildSegments c r fb fu mm files 0).1.getD i dSeg).end_time_offset =
        ((buildSegments c r fb fu mm files 0).1.getD (i + 1) dSeg).start_time_offset) ∧
    (∀ i, i < files.length →
      ((buildSegments c r fb fu mm files 0).1.getD i dSeg).end_time_offset =
        ((buildSegments c r fb fu mm files 0).1.getD i dSeg).start_time_offset +
          fileDuration (files.getD i dFile).file_size c r) ∧
    ((buildSegments c r fb fu mm files 0).1 = [] →
      (buildSegments c r fb fu mm files 0).2.1 = 0) ∧
    ((buildSegments c r fb fu mm files 0).1 ≠ [] →
      ((buildSegments c r fb fu mm files 0).1.getLastD dSeg).end_time_offset =
        (buildSegments c r fb fu mm files 0).2.1) := by
  have hfne : (buildSegments c r fb fu mm files 0).1 ≠ [] → files ≠ [] := by
    intro hs hf
    rw [hf] at hs
    exact hs rfl
  refine ⟨buildSegments_length c r fb fu mm files 0,
    fun hs => buildSegments_head_start c r fb fu mm files 0 (hfne hs),
    fun i hi => buildSegments_chain c r fb fu mm files 0 i hi,
    fun i hi => buildSegments_end c r fb fu mm files 0 i hi,
    ?_,
    fun hs => buildSegments_last c r fb fu mm files 0 (hfne hs)⟩
  intro hs
  have hf : files = [] := by
    by_contra hf
    cases files with
    | nil => exact hf rfl
    | cons f rest => exact absurd hs (by simp [buildSegments])
  rw [hf]
  rfl

/-- C7 witness: a concrete two-file session (byte sizes 2 and 4, one
channel, rate 1) has contiguous segments: segment 0 ends where segment 1
starts. -/
theorem C7_contiguous_timeline_witness :
    0 + 1 < (buildSegments 1 1 "a" 1 (fun _ => none)
      [⟨"a", 2, none⟩, ⟨"b", 4, none⟩] 0).1.length ∧
    ((buildSegments 1 1 "a" 1 (fun _ => none)
      [⟨"a", 2, none⟩, ⟨"b", 4, none⟩] 0).1.getD 0 dSeg).end_time_offset =
    ((buildSegments 1 1 "a" 1 (fun _ => none)
      [⟨"a", 2, none⟩, ⟨"b", 4, none⟩] 0).1.getD 1 dSeg).start_time_offset :=
  ⟨by decide,
   (C7_contiguous_timeline 1 1 "a" 1 (fun _ => none)
     [⟨"a", 2, none⟩, ⟨"b", 4, none⟩]).2.2.1 0 (by decide)⟩

/-- C8: when a file is the anchor (focus) file or has a resolved matched
unit but its sorting artifacts are missing, the assembler emits a gap
segment for it (no unit id, zero spikes, no spike times, `is_gap = true`)
and still produces one segment for every file of the session. -/
theorem C8_missing_artifacts_gap (c r : Nat) (fb : String) (fu : ℤ)
    (mm : String → Option ℤ) (files : List FileInput) (i : Nat)
    (hi : i < files.length)
    (hrel : ((files.getD i dFile).bin_filename == fb
      || (mm (files.getD i dFile).bin_filename).isSome) = true)
    (hmiss : (files.getD i dFile).sorting = none) :
    (buildSegments c r fb fu mm files 0).1.length = files.length ∧
    ((buildSegments c r fb fu mm files 0).1.getD i dSeg).unit_id = none ∧
    ((buildSegments c r fb fu mm files 0).1.getD i dSeg).num_spikes = 0 ∧
    ((buildSegments c r fb fu mm files 0).1.getD i dSeg).spike_times = [] ∧
    ((buildSegments c r fb fu mm files 0).1.getD i dSeg).is_gap = true := by
  obtain ⟨o, ho⟩ := buildSegments_getD_mk c r fb fu mm files 0 i hi
  rw [ho, mkSegment_no_sorting c r fb fu mm _ o hrel hmiss]
  exact ⟨buildSegments_length c r fb fu mm files 0, rfl, rfl, rfl, rfl⟩

/-- C8 witness: a session whose only file is the focus file but has no
sorting artifacts yields a single gap segment. -/
theorem C8_missing_artifacts_gap_witness :
    ((buildSegments 1 1 "a" 1 (fun _ => none) [⟨"a", 2, none⟩] 0).1.getD 0
      dSeg).is_gap = true :=
  (C8_missing_artifacts_gap 1 1 "a" 1 (fun _ => none) [⟨"a", 2, none⟩] 0
    (by decide) (by decide) (by decide)).2.2.2.2

/-- C9: every non-gap segment's spike times are exactly the file's upstream
spike times filtered to the resolved unit and shifted by the segment's
start offset — no clamping or validation against the segment's time range
is applied; in particular, the concrete one-file session with upstream
spike time 5 in a 1-second file produces a non-gap segment whose only spike
time, 5, exceeds its end offset 1. -/
theorem C9_unclamped_spike_times :
    (∀ (c r : Nat) (fb : String) (fu : ℤ) (mm : String → Option ℤ)
       (files : List FileInput) (i : Nat), i < files.length →
       ((buildSegments c r fb fu mm files 0).1.getD i dSeg).is_gap = false →
       ∃ ts ls u, (files.getD i dFile).sorting = some (ts, ls) ∧
         ((buildSegments c r fb fu mm files 0).1.getD i dSeg).unit_id = some u ∧
         ((buildSegments c r fb fu mm files 0).1.getD i dSeg).spike_times =
           ((ts.zip ls).filter (fun p => p.2 == u)).map (fun p =>
             p.1 + ((buildSegments c r fb fu mm files 0).1.getD i
               dSeg).start_time_offset)) ∧
    (((buildSegments 1 1 "a" 7 (fun _ => none) [⟨"a", 2, some ([5], [7])⟩]
        0).1.getD 0 dSeg).is_gap = false ∧
     ((buildSegments 1 1 "a" 7 (fun _ => none) [⟨"a", 2, some ([5], [7])⟩]
        0).1.getD 0 dSeg).spike_times = [5] ∧
     ((buildSegments 1 1 "a" 7 (fun _ => none) [⟨"a", 2, some ([5], [7])⟩]
        0).1.getD 0 dSeg).end_time_offset = 1 ∧
     ((1 : ℚ) < 5)) := by
  constructor
  · intro c r fb fu mm files i hi hng
    obtain ⟨o, ho⟩ := buildSegments_getD_mk c r fb fu mm files 0 i hi
    rw [ho] at hng ⊢
    obtain ⟨ts, ls, u, hsort, hunit, htimes, hstart⟩ :=
      mkSegment_nongap c r fb fu mm _ o hng
    exact ⟨ts, ls, u, hsort, hunit, by rw [htimes, hstart]⟩
  · refine ⟨by norm_num [buildSegments, mkSegment, fileDuration],
      by norm_num [buildSegments, mkSegment, fileDuration],
      by norm_num [buildSegments, mkSegment, fileDuration],
      by norm_num⟩

/-- C9 witness: the universal part of `C9_unclamped_spike_times` applied to
the concrete one-file session recovers its segment's spike times from the
upstream arrays. -/
theorem C9_unclamped_spike_times_witness :
    ∃ ts ls u,
      (([⟨"a", 2, some ([5], [7])⟩] : List FileInput).getD 0 dFile).sorting
        = some (ts, ls) ∧
      ((buildSegments 1 1 "a" 7 (fun _ => none) [⟨"a", 2, some ([5], [7])⟩]
        0).1.getD 0 dSeg).unit_id = some u ∧
      ((buildSegments 1 1 "a" 7 (fun _ => none) [⟨"a", 2, some ([5], [7])⟩]
        0).1.getD 0 dSeg).spike_times =
        ((ts.zip ls).filter (fun p => p.2 == u)).map (fun p =>
          p.1 + ((buildSegments 1 1 "a" 7 (fun _ => none)
            [⟨"a", 2, some ([5], [7])⟩] 0).1.getD 0 dSeg).start_time_offset) :=
  C9_unclamped_spike_times.1 1 1 "a" 7 (fun _ => none)
    [⟨"a", 2, some ([5], [7])⟩] 0 (by decide)
    (by norm_num [buildSegments, mkSegment, fileDuration])

/-! ## The majority vote: `np.unique` + `np.argmax` -/

lemma mem_insertSorted {x y : ℤ} : ∀ {l : List ℤ}, y ∈ insertSorted x l ↔ y = x ∨ y ∈ l
  | [] => by simp [insertSorted]
  | z :: zs => by
    unfold insertSorted
    split
    · simp [List.mem_cons]
    · rw [List.mem_cons, mem_insertSorted (l := zs), List.mem_cons]
      tauto

lemma sorted_insertSorted (x : ℤ) : ∀ (l : List ℤ), l.Sorted (· ≤ ·) →
    (insertSorted x l).Sorted (· ≤ ·)
  | [], _ => by simp [insertSorted]
  | z :: zs, h => by
    unfold insertSorted
    split
    · rename_i hxz
      rw [List.sorted_cons]
      refine ⟨?_, h⟩
      intro b hb
      rcases List.mem_cons.mp hb with rfl | hb'
      · exact hxz
      · exact le_trans hxz ((List.sorted_cons.mp h).1 b hb')
    · rename_i hxz
      push_neg at hxz
      rw [List.sorted_cons] at h ⊢
      refine ⟨?_, sorted_insertSorted x zs h.2⟩
      intro b hb
      rcases mem_insertSorted.mp hb with rfl | hb'
      · exact le_of_lt hxz
      · exact h.1 b hb'

lemma mem_sortInts {y : ℤ} : ∀ {l : List ℤ}, y ∈ sortInts l ↔ y ∈ l
  | [] => Iff.rfl
  | z :: zs => by
    unfold sortInts
    rw [mem_insertSorted, mem_sortInts (l := zs), List.mem_cons]

lemma sorted_sortInts : ∀ (l : List ℤ), (sortInts l).Sorted (· ≤ ·)
  | [] => List.sorted_nil
  | z :: zs => sorted_insertSorted z _ (sorted_sortInts zs)

lemma mem_npUnique {y : ℤ} {l : List ℤ} : y ∈ npUnique l ↔ y ∈ l := by
  unfold npUnique
  rw [mem_sortInts, List.mem_dedup]

lemma npUnique_sorted (l : List ℤ) : (npUnique l).Sorted (· ≤ ·) :=
  sorted_sortInts _

lemma firstMaxIdx_lt : ∀ (c : List Nat), c ≠ [] → firstMaxIdx c < c.length
  | [], h => absurd rfl h
  | x :: xs, _ => by
    unfold firstMaxIdx
    dsimp only
    split
    · rename_i hx
      cases xs with
      | nil => simp at hx
      | cons a as =>
        have := firstMaxIdx_lt (a :: as) (by simp)
        simpa using Nat.succ_lt_succ this
    · simp

lemma firstMaxIdx_max : ∀ (c : List Nat) (j : Nat), j < c.length →
    c.getD j 0 ≤ c.getD (firstMaxIdx c) 0
  | [], j, h => by simp at h
  | x :: xs, j, h => by
    unfold firstMaxIdx
    dsimp only
    split
    · rename_i hx
      rw [List.getD_cons_succ]
      cases j with
      | zero =>
        rw [List.getD_cons_zero]
        exact le_of_lt hx
      | succ j' =>
        rw [List.getD_cons_succ]
        exact firstMaxIdx_max xs j' (by simpa using h)
    · rename_i hx
      push_neg at hx
      rw [List.getD_cons_zero]
      cases j with
      | zero => rw [List.getD_cons_zero]
      | succ j' =>
        rw [List.getD_cons_succ]
        exact le_trans (firstMaxIdx_max xs j' (by simpa using h)) hx

lemma firstMaxIdx_first : ∀ (c : List Nat) (j : Nat), j < firstMaxIdx c →
    c.getD j 0 < c.getD (firstMaxIdx c) 0
  | [], j, h => by simp [firstMaxIdx] at h
  | x :: xs, j, h => by
    revert h
    unfold firstMaxIdx
    dsimp only
    split
    · rename_i hx
      intro h
      rw [List.getD_cons_succ]
      cases j with
      | zero =>
        rw [List.getD_cons_zero]
        exact hx
      | succ j' =>
        rw [List.getD_cons_succ]
        exact firstMaxIdx_first xs j' (by omega)
    · intro h
      omega

lemma majorityLabel_spec (l : List ℤ) (h : l ≠ []) : IsMinMode l (majorityLabel l) := by
  unfold majorityLabel
  dsimp only
  have hune : npUnique l ≠ [] := by
    obtain ⟨a, ha⟩ := List.exists_mem_of_ne_nil l h
    intro hnil
    have hmem : a ∈ npUnique l := mem_npUnique.mpr ha
    rw [hnil] at hmem
    simp at hmem
  have hclen : ((npUnique l).map (fun x => l.count x)).length = (npUnique l).length :=
    List.length_map _ _
  have hcne : (npUnique l).map (fun x => l.count x) ≠ [] := by
    intro hnil
    exact hune (List.map_eq_nil_iff.mp hnil)
  have hfmi : firstMaxIdx ((npUnique l).map (fun x => l.count x)) < (npUnique l).length := by
    have := firstMaxIdx_lt _ hcne
    omega
  have hcget : ∀ j, j < (npUnique l).length →
      ((npUnique l).map (fun x => l.count x)).getD j 0 = l.count ((npUnique l).getD j 0) := by
    intro j hj
    rw [List.getD_eq_getElem _ _ (by rw [List.length_map]; exact hj),
      List.getElem_map, List.getD_eq_getElem _ _ hj]
  have hmem_u : (npUnique l).getD (firstMaxIdx ((npUnique l).map (fun x => l.count x))) 0
      ∈ npUnique l := by
    rw [List.getD_eq_getElem _ _ hfmi]
    exact List.getElem_mem hfmi
  refine ⟨mem_npUnique.mp hmem_u, ?_, ?_⟩
  · intro x hx
    obtain ⟨jx, hjx⟩ := List.mem_iff_get.mp (mem_npUnique.mpr hx)
    have hxval : (npUnique l).getD jx.val 0 = x := by
      rw [List.getD_eq_getElem _ _ jx.isLt, ← hjx]
      simp [List.get_eq_getElem]
    calc l.count x = ((npUnique l).map (fun x => l.count x)).getD jx.val 0 := by
          rw [hcget jx.val jx.isLt, hxval]
      _ ≤ ((npUnique l).map (fun x => l.count x)).getD
            (firstMaxIdx ((npUnique l).map (fun x => l.count x))) 0 :=
          firstMaxIdx_max _ jx.val (by rw [hclen]; exact jx.isLt)
      _ = l.count ((npUnique l).getD
            (firstMaxIdx ((npUnique l).map (fun x => l.count x))) 0) :=
          hcget _ hfmi
  · intro x hx hcount
    obtain ⟨jx, hjx⟩ := List.mem_iff_get.mp (mem_npUnique.mpr hx)
    have hxval : (npUnique l).getD jx.val 0 = x := by
      rw [List.getD_eq_getElem _ _ jx.isLt, ← hjx]
      simp [List.get_eq_getElem]
    have hge : firstMaxIdx ((npUnique l).map (fun x => l.count x)) ≤ jx.val := by
      by_contra hlt
      push_neg at hlt
      have := firstMaxIdx_first ((npUnique l).map (fun x => l.count x)) jx.val hlt
      rw [hcget jx.val jx.isLt, hxval, hcget _ hfmi] at this
      omega
    rcases Nat.lt_or_ge (firstMaxIdx ((npUnique l).map (fun x => l.count x))) jx.val
      with hlt | hge'
    · have hsorted := npUnique_sorted l
      have := hsorted.rel_get_of_lt
        (a := ⟨firstMaxIdx ((npUnique l).map (fun x => l.count x)), hfmi⟩)
        (b := jx) hlt
      rw [← hxval, List.getD_eq_getElem _ _ jx.isLt,
        List.getD_eq_getElem _ _ hfmi]
      simpa [List.get_eq_getElem] using this
    · have heq : firstMaxIdx ((npUnique l).map (fun x => l.count x)) = jx.val := by omega
      rw [← hxval, heq]

/-! ## Python `max(l, key=l.count)` -/

lemma pyMaxAux_spec (full : List ℤ) : ∀ (xs : List ℤ) (cur : ℤ),
    (full.count cur ≤ full.count (pyMaxAux full cur xs) ∧
      ∀ x ∈ xs, full.count x ≤ full.count (pyMaxAux full cur xs)) ∧
    (pyMaxAux full cur xs = cur ∨
      ∃ l1 l2, xs = l1 ++ (pyMaxAux full cur xs) :: l2 ∧
        full.count cur < full.count (pyMaxAux full cur xs) ∧
        ∀ x ∈ l1, full.count x < full.count (pyMaxAux full cur xs))
  | [], cur => by simp [pyMaxAux]
  | x :: xs, cur => by
    unfold pyMaxAux
    split
    · rename_i hlt
      obtain ⟨⟨hc1, hc2⟩, hdec⟩ := pyMaxAux_spec full xs x
      refine ⟨⟨le_trans (le_of_lt hlt) hc1, ?_⟩, ?_⟩
      · intro y hy
        rcases List.mem_cons.mp hy with rfl | hy'
        · exact hc1
        · exact hc2 y hy'
      · rcases hdec with heq | ⟨l1, l2, hxs, hlt2, hl1⟩
        · right
          refine ⟨[], xs, ?_, ?_, by simp⟩
          · rw [heq, List.nil_append]
          · rw [heq]
            exact hlt
        · right
          refine ⟨x :: l1, l2, by rw [List.cons_append, ← hxs], lt_trans hlt hlt2, ?_⟩
          intro y hy
          rcases List.mem_cons.mp hy with rfl | hy'
          · exact hlt2
          · exact hl1 y hy'
    · rename_i hnlt
      push_neg at hnlt
      obtain ⟨⟨hc1, hc2⟩, hdec⟩ := pyMaxAux_spec full xs cur
      refine ⟨⟨hc1, ?_⟩, ?_⟩
      · intro y hy
        rcases List.mem_cons.mp hy with rfl | hy'
        · exact le_trans hnlt hc1
        · exact hc2 y hy'
      · rcases hdec with heq | ⟨l1, l2, hxs, hlt2, hl1⟩
        · left
          exact heq
        · right
          refine ⟨x :: l1, l2, by rw [List.cons_append, ← hxs], hlt2, ?_⟩
          intro y hy
          rcases List.mem_cons.mp hy with rfl | hy'
          · exact lt_of_le_of_lt hnlt hlt2
          · exact hl1 y hy'

lemma pyMaxByCount_spec (l : List ℤ) (h : l ≠ []) : IsFirstMode l (pyMaxByCount l) := by
  cases l with
  | nil => exact absurd rfl h
  | cons x xs =>
    have hred : pyMaxByCount (x :: xs) = pyMaxAux (x :: xs) x xs := rfl
    rw [hred]
    obtain ⟨⟨hc1, hc2⟩, hdec⟩ := pyMaxAux_spec (x :: xs) xs x
    constructor
    · intro y hy
      rcases List.mem_cons.mp hy with rfl | hy'
      · exact hc1
      · exact hc2 y hy'
    · rcases hdec with heq | ⟨l1, l2, hxs, hlt2, hl1⟩
      · refine ⟨[], xs, ?_, by simp⟩
        rw [heq, List.nil_append]
      · refine ⟨x :: l1, l2, by rw [List.cons_append, ← hxs], ?_⟩
        intro y hy
        rcases List.mem_cons.mp hy with rfl | hy'
        · exact hlt2
        · exact hl1 y hy'

/-! ## Characterizing `directionalBest` -/

lemma directionalBest_succ (nearest : List (List Nat)) (ls lt : List ℤ) (m : Nat) :
    directionalBest nearest ls lt (m + 1) =
      (if idxWhere ls ((1 + m : Nat) : ℤ) = [] then directionalBest nearest ls lt m
       else
        (fun j => if j = 1 + m then
            pyMaxByCount (clusterMatches nearest lt (idxWhere ls ((1 + m : Nat) : ℤ)))
          else (directionalBest nearest ls lt m).1 j,
         fun j => if j = 1 + m then
            ((clusterMatches nearest lt (idxWhere ls ((1 + m : Nat) : ℤ))).count
              (pyMaxByCount (clusterMatches nearest lt
                (idxWhere ls ((1 + m : Nat) : ℤ)))) : ℚ)
              / ((idxWhere ls ((1 + m : Nat) : ℤ)).length : ℚ)
          else (directionalBest nearest ls lt m).2 j)) := by
  unfold directionalBest
  rw [List.range'_concat, one_mul, List.foldl_append, List.foldl_cons, List.foldl_nil]

lemma directionalBest_eval (nearest : List (List Nat)) (ls lt : List ℤ) :
    ∀ (maxL k : Nat),
      (directionalBest nearest ls lt maxL).1 k =
        (if 1 ≤ k ∧ k ≤ maxL ∧ idxWhere ls (k : ℤ) ≠ [] then
          pyMaxByCount (clusterMatches nearest lt (idxWhere ls (k : ℤ)))
        else 0) ∧
      (directionalBest nearest ls lt maxL).2 k =
        (if 1 ≤ k ∧ k ≤ maxL ∧ idxWhere ls (k : ℤ) ≠ [] then
          ((clusterMatches nearest lt (idxWhere ls (k : ℤ))).count
            (pyMaxByCount (clusterMatches nearest lt (idxWhere ls (k : ℤ)))) : ℚ)
            / ((idxWhere ls (k : ℤ)).length : ℚ)
        else 0)
  | 0, k => by
    have hne : ¬(1 ≤ k ∧ k ≤ 0 ∧ idxWhere ls (k : ℤ) ≠ []) := by
      rintro ⟨a, b, _⟩
      omega
    rw [if_neg hne, if_neg hne]
    exact ⟨rfl, rfl⟩
  | maxL + 1, k => by
    obtain ⟨ih1, ih2⟩ := directionalBest_eval nearest ls lt maxL k
    rw [directionalBest_succ]
    by_cases hk : k = 1 + maxL
    · subst hk
      by_cases hind : idxWhere ls ((1 + maxL : Nat) : ℤ) = []
      · rw [if_pos hind]

        have hne : ¬(1 ≤ 1 + maxL ∧ 1 + maxL ≤ maxL ∧
            idxWhere ls ((1 + maxL : Nat) : ℤ) ≠ []) := by
          rintro ⟨_, b, _⟩
          omega
        have hne2 : ¬(1 ≤ 1 + maxL ∧ 1 + maxL ≤ maxL + 1 ∧
            idxWhere ls ((1 + maxL : Nat) : ℤ) ≠ []) := by
          rintro ⟨_, _, hn⟩
          exact hn hind
        rw [if_neg hne2, if_neg hne2]
        rw [if_neg hne] at ih1
        rw [if_neg hne] at ih2
        exact ⟨ih1, ih2⟩
      · rw [if_neg hind]
        have hpos : 1 ≤ 1 + maxL ∧ 1 + maxL ≤ maxL + 1 ∧
            idxWhere ls ((1 + maxL : Nat) : ℤ) ≠ [] := ⟨by omega, by omega, hind⟩
        rw [if_pos hpos, if_pos hpos]
        constructor
        · show (if 1 + maxL = 1 + maxL then _ else _) = _
          rw [if_pos rfl]
        · show (if 1 + maxL = 1 + maxL then _ else _) = _
          rw [if_pos rfl]
    · have hiff : ∀ (hc2 : 1 ≤ k ∧ k ≤ maxL + 1 ∧ idxWhere ls (k : ℤ) ≠ []),
          1 ≤ k ∧ k ≤ maxL ∧ idxWhere ls (k : ℤ) ≠ [] := by
        rintro ⟨a, b, c⟩
        exact ⟨a, by omega, c⟩
      by_cases hind : idxWhere ls ((1 + maxL : Nat) : ℤ) = []
      · rw [if_pos hind]
        by_cases hc : 1 ≤ k ∧ k ≤ maxL ∧ idxWhere ls (k : ℤ) ≠ []
        · rw [if_pos hc] at ih1 ih2
          rw [if_pos ⟨hc.1, by omega, hc.2.2⟩, if_pos ⟨hc.1, by omega, hc.2.2⟩]
          exact ⟨ih1, ih2⟩
        · rw [if_neg hc] at ih1 ih2
          rw [if_neg (fun hc2 => hc (hiff hc2)), if_neg (fun hc2 => hc (hiff hc2))]
          exact ⟨ih1, ih2⟩
      · rw [if_neg hind]
        constructor
        · show (if k = 1 + maxL then _ else _) = _
          rw [if_neg hk]
          by_cases hc : 1 ≤ k ∧ k ≤ maxL ∧ idxWhere ls (k : ℤ) ≠ []
          · rw [if_pos hc] at ih1
            rw [if_pos ⟨hc.1, by omega, hc.2.2⟩]
            exact ih1
          · rw [if_neg hc] at ih1
            rw [if_neg (fun hc2 => hc (hiff hc2))]
            exact ih1
        · show (if k = 1 + maxL then _ else _) = _
          rw [if_neg hk]
          by_cases hc : 1 ≤ k ∧ k ≤ maxL ∧ idxWhere ls (k : ℤ) ≠ []
          · rw [if_pos hc] at ih2
            rw [if_pos ⟨hc.1, by omega, hc.2.2⟩]
            exact ih2
          · rw [if_neg hc] at ih2
            rw [if_neg (fun hc2 => hc (hiff hc2))]
            exact ih2

lemma directionalBest_pos (nearest : List (List Nat)) (ls lt : List ℤ)
    (maxL k : Nat) (h1 : 1 ≤ k) (h2 : k ≤ maxL)
    (h3 : idxWhere ls (k : ℤ) ≠ []) :
    (directionalBest nearest ls lt maxL).1 k
        = pyMaxByCount (clusterMatches nearest lt (idxWhere ls (k : ℤ))) ∧
    (directionalBest nearest ls lt maxL).2 k
        = ((clusterMatches nearest lt (idxWhere ls (k : ℤ))).count
            (pyMaxByCount (clusterMatches nearest lt (idxWhere ls (k : ℤ)))) : ℚ)
          / ((idxWhere ls (k : ℤ)).length : ℚ) := by
  obtain ⟨e1, e2⟩ := directionalBest_eval nearest ls lt maxL k
  rw [e1, e2, if_pos ⟨h1, h2, h3⟩, if_pos ⟨h1, h2, h3⟩]
  exact ⟨rfl, rfl⟩

lemma directionalBest_zero (nearest : List (List Nat)) (ls lt : List ℤ)
    (maxL k : Nat)
    (h : ¬(1 ≤ k ∧ k ≤ maxL ∧ idxWhere ls (k : ℤ) ≠ [])) :
    (directionalBest nearest ls lt maxL).1 k = 0 ∧
    (directionalBest nearest ls lt maxL).2 k = 0 := by
  obtain ⟨e1, e2⟩ := directionalBest_eval nearest ls lt maxL k
  rw [e1, e2, if_neg h, if_neg h]
  exact ⟨rfl, rfl⟩

/-! ## The mutuality filter as a membership predicate -/

lemma foldl_append_if_mem {α β : Type} (c : α → Prop) [DecidablePred c] (g : α → β) :
    ∀ (xs : List α) (init : List β) (y : β),
      (y ∈ xs.foldl (fun acc x => if c x then acc ++ [g x] else acc) init ↔
        y ∈ init ∨ ∃ x, x ∈ xs ∧ c x ∧ y = g x)
  | [], init, y => by simp
  | x :: xs, init, y => by
    rw [List.foldl_cons, foldl_append_if_mem c g xs _ y]
    by_cases hc : c x
    · rw [if_pos hc]
      constructor
      · rintro (h | ⟨z, hz, hcz, hy⟩)
        · rcases List.mem_append.mp h with h' | h'
          · exact Or.inl h'
          · exact Or.inr ⟨x, List.mem_cons_self x xs, hc, List.mem_singleton.mp h'⟩
        · exact Or.inr ⟨z, List.mem_cons_of_mem x hz, hcz, hy⟩
      · rintro (h | ⟨z, hz, hcz, hy⟩)
        · exact Or.inl (List.mem_append.mpr (Or.inl h))
        · rcases List.mem_cons.mp hz with rfl | hz'
          · exact Or.inl (List.mem_append.mpr (Or.inr (List.mem_singleton.mpr hy)))
          · exact Or.inr ⟨z, hz', hcz, hy⟩
    · rw [if_neg hc]
      constructor
      · rintro (h | ⟨z, hz, hcz, hy⟩)
        · exact Or.inl h
        · exact Or.inr ⟨z, List.mem_cons_of_mem x hz, hcz, hy⟩
      · rintro (h | ⟨z, hz, hcz, hy⟩)
        · exact Or.inl h
        · rcases List.mem_cons.mp hz with rfl | hz'
          · exact absurd hcz hc
          · exact Or.inr ⟨z, hz', hcz, hy⟩

lemma mem_mutualMatchesOf (dxy dyx : (Nat → ℤ) × (Nat → ℚ)) (mx : Nat)
    (m : MutualMatch) :
    m ∈ mutualMatchesOf dxy dyx mx ↔
      ∃ kx : Nat, kx ∈ List.range' 1 mx ∧
        (0 < dxy.1 kx ∧ dyx.1 (dxy.1 kx).toNat = (kx : ℤ)) ∧
        m = ⟨(kx : ℤ), dxy.1 kx, dxy.2 kx, dyx.2 (dxy.1 kx).toNat,
            (dxy.2 kx + dyx.2 (dxy.1 kx).toNat) / 2⟩ := by
  unfold mutualMatchesOf
  have h := foldl_append_if_mem
    (fun kx : Nat => 0 < dxy.1 kx ∧ dyx.1 (dxy.1 kx).toNat = (kx : ℤ))
    (fun kx : Nat => (⟨(kx : ℤ), dxy.1 kx, dxy.2 kx, dyx.2 (dxy.1 kx).toNat,
      (dxy.2 kx + dyx.2 (dxy.1 kx).toNat) / 2⟩ : MutualMatch))
    (List.range' 1 mx) [] m
  simp only [List.not_mem_nil, false_or] at h
  exact h

/-! ## Unfolding a successful `compute_unit_matches` run -/

lemma compute_unit_matches_eq {fx fy : List (List ℚ)} {lx ly : List ℤ} {k : Nat}
    {nyx nxy : List (List Nat)} {my mx : ℤ}
    (hyx : nearest_neighbors fx fy k = .ok nyx)
    (hxy : nearest_neighbors fy fx k = .ok nxy)
    (hmy : npMax ly = .ok my) (hmx : npMax lx = .ok mx) :
    compute_unit_matches fx lx fy ly k = .ok
      ⟨mutualMatchesOf (directionalBest nxy lx ly mx.toNat)
          (directionalBest nyx ly lx my.toNat) mx.toNat,
        eventMatches nxy lx ly, eventMatches nyx ly lx⟩ := by
  unfold compute_unit_matches
  rw [hyx, hxy, hmy, hmx]
  rfl

/-! ## Neighbor list shapes -/

lemma pickMinIdx_mem (key : Nat → ℚ) : ∀ (pool : List Nat) (cur : Nat),
    pickMinIdx key cur pool ∈ cur :: pool
  | [], cur => List.mem_singleton.mpr rfl
  | i :: rest, cur => by
    unfold pickMinIdx
    have h := pickMinIdx_mem key rest (if key i < key cur then i else cur)
    rcases List.mem_cons.mp h with heq | hmem
    · rw [heq]
      split
      · exact List.mem_cons_of_mem cur (List.mem_cons_self i rest)
      · exact List.mem_cons_self cur (i :: rest)
    · exact List.mem_cons_of_mem cur (List.mem_cons_of_mem i hmem)

lemma selectSmallest_length (key : Nat → ℚ) : ∀ (k : Nat) (pool : List Nat),
    (selectSmallest key k pool).length = min k pool.length
  | 0, pool => by simp [selectSmallest]
  | k + 1, [] => by simp [selectSmallest]
  | k + 1, i :: rest => by
    unfold selectSmallest
    dsimp only
    rw [List.length_cons, selectSmallest_length key k,
      List.length_erase_of_mem (pickMinIdx_mem key rest i)]
    simp only [List.length_cons]
    omega

lemma kNearest_length (data1 : List (List ℚ)) (q : List ℚ) (k : Nat)
    (h : k ≤ data1.length) : (kNearest data1 q k).length = k := by
  unfold kNearest
  rw [selectSmallest_length, List.length_range]
  omega

lemma nearest_neighbors_ok {d1 d2 : List (List ℚ)} {k : Nat}
    {res : List (List Nat)} (h : nearest_neighbors d1 d2 k = .ok res) :
    0 < k ∧ k ≤ d1.length ∧ res = d2.map (fun q => kNearest d1 q k) := by
  unfold nearest_neighbors at h
  split at h
  · simp at h
  · split at h
    · simp at h
    · split at h
      · simp at h
      · split at h
        · simp at h
        · rename_i h1 h2 h3 h4
          refine ⟨by omega, by omega, ?_⟩
          injection h with h
          exact h.symm

lemma nearest_neighbors_row_length {d1 d2 : List (List ℚ)} {k : Nat}
    {res : List (List Nat)} (h : nearest_neighbors d1 d2 k = .ok res)
    (i : Nat) (hi : i < d2.length) : (res.getD i []).length = k := by
  obtain ⟨hk, hkd, hres⟩ := nearest_neighbors_ok h
  subst hres
  rw [List.getD_eq_getElem _ _ (by rw [List.length_map]; exact hi),
    List.getElem_map]
  exact kNearest_length d1 _ k hkd

lemma nearest_neighbors_row_ne_nil {d1 d2 : List (List ℚ)} {k : Nat}
    {res : List (List Nat)} (h : nearest_neighbors d1 d2 k = .ok res)
    (i : Nat) (hi : i < d2.length) : res.getD i [] ≠ [] := by
  have hlen := nearest_neighbors_row_length h i hi
  have hk := (nearest_neighbors_ok h).1
  intro hnil
  rw [hnil] at hlen
  simp only [List.length_nil] at hlen
  omega

lemma eventMatches_getD (nearest : List (List Nat)) (ls lt : List ℤ) (i : Nat)
    (hi : i < ls.length) :
    (eventMatches nearest ls lt).getD i 0 = eventVote nearest lt i := by
  unfold eventMatches
  rw [List.getD_eq_getElem _ _
      (by rw [List.length_map, List.length_range]; exact hi),
    List.getElem_map, List.getElem_range]

/-! ## Claim theorems about the matcher -/

/-- C4: for every event, its event-level best-match label (as returned in
the event-match arrays) is the majority vote over the labels of its k
nearest neighbors in the other recording: it attains the maximal
multiplicity among those neighbor labels, and ties are broken by the
smallest label value (the `np.unique` enumeration is ascending and
`np.argmax` returns the first maximum). -/
theorem C4_event_level_majority_vote {fx fy : List (List ℚ)} {lx ly : List ℤ}
    {k : Nat} {nyx nxy : List (List Nat)} {my mx : ℤ} {r : UnitMatchResult}
    (hyx : nearest_neighbors fx fy k = .ok nyx)
    (hxy : nearest_neighbors fy fx k = .ok nxy)
    (hmy : npMax ly = .ok my) (hmx : npMax lx = .ok mx)
    (hlx : lx.length = fx.length) (hly : ly.length = fy.length)
    (hr : compute_unit_matches fx lx fy ly k = .ok r) :
    (∀ i, i < lx.length →
      r.event_matches_x_to_y.getD i 0 =
        majorityLabel (neighborLabels ly (nxy.getD i [])) ∧
      IsMinMode (neighborLabels ly (nxy.getD i []))
        (r.event_matches_x_to_y.getD i 0)) ∧
    (∀ i, i < ly.length →
      r.event_matches_y_to_x.getD i 0 =
        majorityLabel (neighborLabels lx (nyx.getD i [])) ∧
      IsMinMode (neighborLabels lx (nyx.getD i []))
        (r.event_matches_y_to_x.getD i 0)) := by
  have heq := compute_unit_matches_eq hyx hxy hmy hmx
  rw [hr] at heq
  injection heq with heq
  subst heq
  dsimp only
  constructor
  · intro i hi
    have hrow : nxy.getD i [] ≠ [] :=
      nearest_neighbors_row_ne_nil hxy i (by omega)
    have hnl : neighborLabels ly (nxy.getD i []) ≠ [] := by
      intro hnil
      exact hrow (List.map_eq_nil_iff.mp hnil)
    rw [eventMatches_getD nxy lx ly i hi]
    exact ⟨rfl, majorityLabel_spec _ hnl⟩
  · intro i hi
    have hrow : nyx.getD i [] ≠ [] :=
      nearest_neighbors_row_ne_nil hyx i (by omega)
    have hnl : neighborLabels lx (nyx.getD i []) ≠ [] := by
      intro hnil
      exact hrow (List.map_eq_nil_iff.mp hnil)
    rw [eventMatches_getD nyx ly lx i hi]
    exact ⟨rfl, majorityLabel_spec _ hnl⟩

/-- C4 witness: for one event whose single neighbor carries the label 0,
the event-level match is 0 and it is the minimal mode of the neighbor
labels. -/
theorem C4_event_level_majority_vote_witness :
    ((⟨[], [0], [1]⟩ : UnitMatchResult).event_matches_x_to_y.getD 0 0 =
        majorityLabel (neighborLabels [0] ([[0]].getD 0 [])) ∧
      IsMinMode (neighborLabels [0] ([[0]].getD 0 []))
        ((⟨[], [0], [1]⟩ : UnitMatchResult).event_matches_x_to_y.getD 0 0)) := by
  have hn : nearest_neighbors [[(0:ℚ)]] [[0]] 1 = .ok [[0]] := rfl
  have hmy : npMax [(0:ℤ)] = .ok 0 := rfl
  have hmx : npMax [(1:ℤ)] = .ok 1 := rfl
  have hr : compute_unit_matches [[(0:ℚ)]] [1] [[0]] [0] 1 =
      .ok ⟨[], [0], [1]⟩ := rfl
  exact (C4_event_level_majority_vote hn hn hmy hmx rfl rfl hr).1 0 (by decide)

/-- C5: for every unit `k > 0` with at least one event, the cluster-level
best match stored by the directional pass is the first mode (Python
`max(_, key=count)` semantics: maximal tally, first in event-scan order on
ties) of the per-event best-match labels of the unit's events, and the
directional confidence score is the number of agreeing events divided by
the unit's event count. -/
theorem C5_cluster_consensus (nearest : List (List Nat)) (ls lt : List ℤ)
    (maxL k : Nat) (h1 : 1 ≤ k) (h2 : k ≤ maxL)
    (h3 : idxWhere ls (k : ℤ) ≠ []) :
    clusterMatches nearest lt (idxWhere ls (k : ℤ))
        = (idxWhere ls (k : ℤ)).map (eventVote nearest lt) ∧
    IsFirstMode (clusterMatches nearest lt (idxWhere ls (k : ℤ)))
      ((directionalBest nearest ls lt maxL).1 k) ∧
    (directionalBest nearest ls lt maxL).2 k =
      ((clusterMatches nearest lt (idxWhere ls (k : ℤ))).count
          ((directionalBest nearest ls lt maxL).1 k) : ℚ)
        / ((idxWhere ls (k : ℤ)).length : ℚ) := by
  obtain ⟨e1, e2⟩ := directionalBest_pos nearest ls lt maxL k h1 h2 h3
  refine ⟨rfl, ?_, ?_⟩
  · rw [e1]
    apply pyMaxByCount_spec
    intro hnil
    exact h3 (List.map_eq_nil_iff.mp hnil)
  · rw [e2, e1]

/-- C5 witness: a one-event unit whose event vote is 5 gets cluster best
match 5 with confidence 1 = 1/1. -/
theorem C5_cluster_consensus_witness :
    IsFirstMode (clusterMatches [[0]] [5] (idxWhere [1] ((1 : Nat) : ℤ)))
      ((directionalBest [[0]] [1] [5] 1).1 1) :=
  (C5_cluster_consensus [[0]] [1] [5] 1 1 (by decide) (by decide)
    (by decide)).2.1

/-- C6: `compute_unit_matches` emits a pair (kx, ky) in `mutual_matches`
iff kx is a unit of X (0 < kx ≤ max label), X's cluster-level best match
for kx is ky, ky > 0, and Y's cluster-level best match for ky is kx; every
emitted entry has positive unit ids, carries the two directional
confidences, and its overall score is their arithmetic mean. -/
theorem C6_mutuality_filter {fx fy : List (List ℚ)} {lx ly : List ℤ}
    {k : Nat} {nyx nxy : List (List Nat)} {my mx : ℤ} {r : UnitMatchResult}
    (hyx : nearest_neighbors fx fy k = .ok nyx)
    (hxy : nearest_neighbors fy fx k = .ok nxy)
    (hmy : npMax ly = .ok my) (hmx : npMax lx = .ok mx)
    (hr : compute_unit_matches fx lx fy ly k = .ok r) :
    (∀ kx ky : ℤ,
      ((∃ m, m ∈ r.mutual_matches ∧ m.unit_x = kx ∧ m.unit_y = ky) ↔
        (0 < kx ∧ kx ≤ mx ∧
          (directionalBest nxy lx ly mx.toNat).1 kx.toNat = ky ∧ 0 < ky ∧
          (directionalBest nyx ly lx my.toNat).1 ky.toNat = kx))) ∧
    (∀ m, m ∈ r.mutual_matches →
      0 < m.unit_x ∧ 0 < m.unit_y ∧
      m.score_x_to_y = (directionalBest nxy lx ly mx.toNat).2 m.unit_x.toNat ∧
      m.score_y_to_x = (directionalBest nyx ly lx my.toNat).2 m.unit_y.toNat ∧
      m.overall_score = (m.score_x_to_y + m.score_y_to_x) / 2) := by
  have heq := compute_unit_matches_eq hyx hxy hmy hmx
  rw [hr] at heq
  injection heq with heq
  subst heq
  dsimp only
  have hmx0 : (0 : ℤ) ≤ mx ∨ mx.toNat = 0 := by
    rcases le_or_lt 0 mx with h | h
    · exact Or.inl h
    · exact Or.inr (Int.toNat_of_nonpos h.le)
  constructor
  · intro kx ky
    constructor
    · rintro ⟨m, hm, hux, huy⟩
      rw [mem_mutualMatchesOf] at hm
      obtain ⟨kxn, hkr, ⟨hpos, hmut⟩, hmeq⟩ := hm
      subst hmeq
      dsimp only at hux huy
      rw [List.mem_range'] at hkr
      obtain ⟨i, hi, hkxn⟩ := hkr
      have hkx1 : 1 ≤ kxn := by omega
      have hkxm : kxn ≤ mx.toNat := by omega
      have hmxpos : (0 : ℤ) ≤ mx := by
        rcases hmx0 with h | h
        · exact h
        · omega
      subst hux
      refine ⟨by exact_mod_cast hkx1, ?_, ?_, ?_, ?_⟩
      · calc ((kxn : ℤ)) ≤ (mx.toNat : ℤ) := by exact_mod_cast hkxm
          _ = mx := Int.toNat_of_nonneg hmxpos
      · rw [Int.toNat_natCast]
        exact huy
      · rw [← huy]
        exact hpos
      · rw [← huy]
        exact hmut
    · rintro ⟨hkx0, hkxm, hdxy, hky0, hdyx⟩
      refine ⟨⟨kx, ky, (directionalBest nxy lx ly mx.toNat).2 kx.toNat,
        (directionalBest nyx ly lx my.toNat).2 ky.toNat,
        ((directionalBest nxy lx ly mx.toNat).2 kx.toNat
          + (directionalBest nyx ly lx my.toNat).2 ky.toNat) / 2⟩, ?_, rfl, rfl⟩
      rw [mem_mutualMatchesOf]
      refine ⟨kx.toNat, ?_, ⟨?_, ?_⟩, ?_⟩
      · rw [List.mem_range']
        refine ⟨kx.toNat - 1, ?_, by omega⟩
        have := Int.toNat_le_toNat hkxm
        omega
      · rw [hdxy]
        exact hky0
      · rw [hdxy, hdyx]
        exact (Int.toNat_of_nonneg hkx0.le).symm
      · have hcast : ((kx.toNat : ℤ)) = kx := Int.toNat_of_nonneg hkx0.le
        rw [hdxy, hcast]
  · intro m hm
    rw [mem_mutualMatchesOf] at hm
    obtain ⟨kxn, hkr, ⟨hpos, hmut⟩, hmeq⟩ := hm
    subst hmeq
    rw [List.mem_range'] at hkr
    obtain ⟨i, hi, hkxn⟩ := hkr
    refine ⟨?_, hpos, ?_, rfl, rfl⟩
    · show (0 : ℤ) < ((kxn : Nat) : ℤ)
      exact_mod_cast (by omega : (0 : ℕ) < kxn)
    · show (directionalBest nxy lx ly mx.toNat).2 kxn
        = (directionalBest nxy lx ly mx.toNat).2 ((kxn : ℤ)).toNat
      rw [Int.toNat_natCast]

/-- C6 witness: the single-event self-comparison has the mutual pair
(1, 1). -/
theorem C6_mutuality_filter_witness :
    ∃ m, m ∈ (UnitMatchResult.mk
        (mutualMatchesOf (directionalBest [[0]] [1] [1] 1)
          (directionalBest [[0]] [1] [1] 1) 1)
        (eventMatches [[0]] [1] [1])
        (eventMatches [[0]] [1] [1])).mutual_matches ∧
      m.unit_x = 1 ∧ m.unit_y = 1 := by
  have hn : nearest_neighbors [[(0:ℚ)]] [[0]] 1 = .ok [[0]] := rfl
  have hm1 : npMax [(1:ℤ)] = .ok 1 := rfl
  have hr := compute_unit_matches_eq hn hn hm1 hm1
  exact ((C6_mutuality_filter hn hn hm1 hm1 hr).1 1 1).mpr
    ⟨by decide, by decide, by decide, by decide, by decide⟩

/-- C10: events carrying the sentinel label 0 do serve as nearest neighbors
and can win event-level votes: on a concrete input whose only Y event has
label 0, the returned `event_matches_x_to_y` is `[0]` (and the run
succeeds, with no mutual matches); label 0 is excluded only downstream —
the cluster-level pass never writes slot 0, and every mutual-match entry
has strictly positive unit ids on both sides. -/
theorem C10_sentinel_label_votes :
    compute_unit_matches [[(0:ℚ)]] [1] [[0]] [0] 1 =
      .ok ⟨[], [0], [1]⟩ ∧
    (∀ (nearest : List (List Nat)) (ls lt : List ℤ) (maxL : Nat),
      (directionalBest nearest ls lt maxL).1 0 = 0 ∧
      (directionalBest nearest ls lt maxL).2 0 = 0) ∧
    (∀ (dxy dyx : (Nat → ℤ) × (Nat → ℚ)) (mx : Nat) (m : MutualMatch),
      m ∈ mutualMatchesOf dxy dyx mx → 0 < m.unit_x ∧ 0 < m.unit_y) := by
  refine ⟨rfl, ?_, ?_⟩
  · intro nearest ls lt maxL
    exact directionalBest_zero nearest ls lt maxL 0
      (by rintro ⟨h, _, _⟩; omega)
  · intro dxy dyx mx m hm
    rw [mem_mutualMatchesOf] at hm
    obtain ⟨kxn, hkr, ⟨hpos, _⟩, hmeq⟩ := hm
    subst hmeq
    rw [List.mem_range'] at hkr
    obtain ⟨i, hi, hkxn⟩ := hkr
    refine ⟨?_, hpos⟩
    show (0 : ℤ) < ((kxn : Nat) : ℤ)
    exact_mod_cast (by omega : (0 : ℕ) < kxn)

/-- C10 witness: the mutual-match positivity part applied to a concrete
one-entry mutual-match list. -/
theorem C10_sentinel_label_votes_witness :
    0 < (⟨1, 1, 1, 1, (1 + 1) / 2⟩ : MutualMatch).unit_x ∧
    0 < (⟨1, 1, 1, 1, (1 + 1) / 2⟩ : MutualMatch).unit_y :=
  C10_sentinel_label_votes.2.2 (fun _ => 1, fun _ => 1) (fun _ => 1, fun _ => 1)
    1 ⟨1, 1, 1, 1, (1 + 1) / 2⟩ (by exact List.mem_singleton.mpr rfl)

/-! ## Claim C3: identical-copy self matching -/

/-- C3 counterexample: with Y an exact copy of X (three 1-D events at 0, 1,
2 with labels [1, 2, 2]) and k = 3, the run succeeds and unit 1 (which has
an event) gets no mutual self-match: every vote is swamped by unit 2, so
`mutual_matches` contains no pair (1, 1). -/
theorem C3_counterexample :
    (compute_unit_matches [[(0:ℚ)],[1],[2]] [1,2,2] [[0],[1],[2]] [1,2,2]
        3).toOption.isSome = true ∧
    idxWhere [1,2,2] 1 ≠ [] ∧
    ((compute_unit_matches [[(0:ℚ)],[1],[2]] [1,2,2] [[0],[1],[2]] [1,2,2]
        3).toOption.getD dUMR).mutual_matches.all
      (fun m => !(m.unit_x == 1 && m.unit_y == 1)) = true := by
  have hnn : nearest_neighbors [[(0:ℚ)],[1],[2]] [[0],[1],[2]] 3 =
      .ok [[0,1,2],[1,0,2],[2,1,0]] := by
    norm_num [nearest_neighbors, kNearest, selectSmallest, pickMinIdx, sqDist,
      List.range_succ, List.range_zero]
  have hm : npMax [(1:ℤ),2,2] = .ok 2 := rfl
  have hceq := compute_unit_matches_eq hnn hnn hm hm
  rw [hceq]
  exact ⟨rfl, by decide, by decide⟩

lemma foldl_max_zero : ∀ (xs : List ℤ), (∀ a ∈ xs, a = 0) → xs.foldl max 0 = 0
  | [], _ => rfl
  | x :: xs, h => by
    have hx : x = 0 := h x (List.mem_cons_self x xs)
    rw [List.foldl_cons, hx, max_self]
    exact foldl_max_zero xs (fun a ha => h a (List.mem_cons_of_mem x ha))

lemma npMax_all_zero (l : List ℤ) (hne : l ≠ []) (hz : ∀ a ∈ l, a = 0) :
    npMax l = .ok 0 := by
  cases l with
  | nil => exact absurd rfl hne
  | cons x xs =>
    have hred : npMax (x :: xs) = .ok (xs.foldl max x) := rfl
    have hx : x = 0 := hz x (List.mem_cons_self x xs)
    rw [hred, hx, foldl_max_zero xs (fun a ha => hz a (List.mem_cons_of_mem x ha))]

/-- C3 (amended): when Y is an exact copy of X and in addition each event's
k nearest neighbors in the copy all belong to the event's own unit (e.g.
well-separated units, or k = 1 with pairwise-distinct feature vectors),
every unit with label > 0 that has at least one event appears in
`mutual_matches` as a mutual self-match with both directional scores and
overall score equal to 1. -/
theorem C3_identical_copy_self_match (f : List (List ℚ)) (l : List ℤ)
    (k : Nat) (ns : List (List Nat)) (mx : ℤ)
    (hns : nearest_neighbors f f k = .ok ns)
    (hmx : npMax l = .ok mx)
    (hlen : l.length = f.length)
    (hsep : ∀ i, i < l.length → ∀ j ∈ ns.getD i [], l.getD j 0 = l.getD i 0) :
    (compute_unit_matches f l f l k).toOption.isSome = true ∧
    ∀ u : ℤ, 0 < u → u ≤ mx → idxWhere l u ≠ [] →
      (⟨u, u, 1, 1, 1⟩ : MutualMatch) ∈
        ((compute_unit_matches f l f l k).toOption.getD dUMR).mutual_matches := by
  have hceq := compute_unit_matches_eq hns hns hmx hmx
  rw [hceq]
  refine ⟨rfl, ?_⟩
  intro u hu0 humx hune
  show (⟨u, u, 1, 1, 1⟩ : MutualMatch) ∈
    mutualMatchesOf (directionalBest ns l l mx.toNat)
      (directionalBest ns l l mx.toNat) mx.toNat
  have hmemIdx : ∀ i ∈ idxWhere l u, i < l.length ∧ l.getD i 0 = u := by
    intro i hi
    unfold idxWhere at hi
    rw [List.mem_filter] at hi
    obtain ⟨hr', hc⟩ := hi
    rw [List.mem_range] at hr'
    refine ⟨hr', ?_⟩
    simpa using hc
  have hcms : ∀ x ∈ clusterMatches ns l (idxWhere l u), x = u := by
    intro x hx
    unfold clusterMatches at hx
    rw [List.mem_map] at hx
    obtain ⟨i, hi, hxeq⟩ := hx
    obtain ⟨hilen, hilab⟩ := hmemIdx i hi
    have hrow : ns.getD i [] ≠ [] :=
      nearest_neighbors_row_ne_nil hns i (by omega)
    have hconst : ∀ y ∈ neighborLabels l (ns.getD i []), y = u := by
      intro y hy
      unfold neighborLabels at hy
      rw [List.mem_map] at hy
      obtain ⟨j, hj, hyeq⟩ := hy
      rw [← hyeq, hsep i hilen j hj, hilab]
    have hne : neighborLabels l (ns.getD i []) ≠ [] := fun hnil =>
      hrow (List.map_eq_nil_iff.mp hnil)
    have hmem := (majorityLabel_spec _ hne).1
    rw [← hxeq]
    exact hconst _ hmem
  have hcne : clusterMatches ns l (idxWhere l u) ≠ [] := by
    intro hnil
    exact hune (List.map_eq_nil_iff.mp hnil)
  have hbl : pyMaxByCount (clusterMatches ns l (idxWhere l u)) = u := by
    obtain ⟨hmax, l1, l2, hdec, hl1⟩ := pyMaxByCount_spec _ hcne
    have hm' : pyMaxByCount (clusterMatches ns l (idxWhere l u)) ∈
        l1 ++ pyMaxByCount (clusterMatches ns l (idxWhere l u)) :: l2 :=
      List.mem_append.mpr (Or.inr (List.mem_cons_self _ _))
    rw [← hdec] at hm'
    exact hcms _ hm'
  have hcount : (clusterMatches ns l (idxWhere l u)).count u
      = (clusterMatches ns l (idxWhere l u)).length := by
    rw [List.count_eq_length]
    intro b hb
    exact (hcms b hb).symm
  have hlenc : (clusterMatches ns l (idxWhere l u)).length
      = (idxWhere l u).length := List.length_map _ _
  have hk1 : 1 ≤ u.toNat := by omega
  have hk2 : u.toNat ≤ mx.toNat := by omega
  have hcastu : ((u.toNat : Nat) : ℤ) = u := Int.toNat_of_nonneg hu0.le
  have hidx : idxWhere l ((u.toNat : Nat) : ℤ) ≠ [] := by
    rw [hcastu]
    exact hune
  obtain ⟨e1, e2⟩ := directionalBest_pos ns l l mx.toNat u.toNat hk1 hk2 hidx
  rw [hcastu] at e1 e2
  have he1 : (directionalBest ns l l mx.toNat).1 u.toNat = u := by
    rw [e1, hbl]
  have he2 : (directionalBest ns l l mx.toNat).2 u.toNat = 1 := by
    rw [e2, hbl, hcount, hlenc, div_self]
    have hne0 : (idxWhere l u).length ≠ 0 := by
      intro h0
      exact hune (List.length_eq_zero.mp h0)
    exact_mod_cast hne0
  rw [mem_mutualMatchesOf]
  refine ⟨u.toNat, ?_, ⟨?_, ?_⟩, ?_⟩
  · rw [List.mem_range']
    exact ⟨u.toNat - 1, by omega, by omega⟩
  · rw [he1]
    exact hu0
  · rw [he1]
    rw [he1]  -- hmm may need adjusting
    exact hcastu.symm
  · rw [he1, he2, hcastu]
    norm_num

/-- C3 witness: two well-separated one-event units at 0 and 10, k = 1:
both units self-match with score 1. -/
theorem C3_identical_copy_self_match_witness :
    (⟨1, 1, 1, 1, 1⟩ : MutualMatch) ∈
      ((compute_unit_matches [[(0:ℚ)],[10]] [1,2] [[0],[10]] [1,2]
        1).toOption.getD dUMR).mutual_matches := by
  have hns : nearest_neighbors [[(0:ℚ)],[10]] [[0],[10]] 1 = .ok [[0],[1]] := by
    norm_num [nearest_neighbors, kNearest, selectSmallest, pickMinIdx, sqDist,
      List.range_succ, List.range_zero]
  have hmx : npMax [(1:ℤ),2] = .ok 2 := rfl
  exact (C3_identical_copy_self_match [[(0:ℚ)],[10]] [1,2] 1 [[0],[1]] 2
    hns hmx rfl (by decide)).2 1 (by decide) (by decide) (by decide)

/-! ## Claim C1: degenerate input shapes -/

/-- C1 counterexample: with one reference event and k = 2 the matcher does
raise (sklearn's "Expected n_neighbors <= n_samples_fit"); k is not clamped
and `compute_unit_matches` propagates the failure. -/
theorem C1_counterexample :
    nearest_neighbors [[(0:ℚ)]] [[0]] 2 =
      .error "Expected n_neighbors <= n_samples_fit" ∧
    compute_unit_matches [[(0:ℚ)]] [1] [[0]] [1] 2 =
      .error "Expected n_neighbors <= n_samples_fit" :=
  ⟨rfl, rfl⟩

/-- C1 (amended): when k exceeds the reference set size, `nearest_neighbors`
and `compute_unit_matches` raise rather than clamp; empty or all-zero label
arrays never yield spurious matches: with valid k and non-empty all-zero
label arrays the run succeeds with an empty mutual-match set. -/
theorem C1_input_shape_degeneracies :
    (∀ (d1 d2 : List (List ℚ)) (k : Nat), d1.length < k →
      (nearest_neighbors d1 d2 k).toOption = none) ∧
    (∀ (fx : List (List ℚ)) (lx : List ℤ) (fy : List (List ℚ)) (ly : List ℤ)
        (k : Nat), fx.length < k →
      (compute_unit_matches fx lx fy ly k).toOption = none) ∧
    (∀ (fx : List (List ℚ)) (lx : List ℤ) (fy : List (List ℚ)) (ly : List ℤ)
        (k : Nat), lx ≠ [] → ly ≠ [] →
      (∀ a ∈ lx, a = 0) → (∀ a ∈ ly, a = 0) →
      0 < k → k ≤ fx.length → k ≤ fy.length →
      (compute_unit_matches fx lx fy ly k).toOption.isSome = true ∧
      ((compute_unit_matches fx lx fy ly k).toOption.getD dUMR).mutual_matches
        = []) := by
  have part1 : ∀ (d1 d2 : List (List ℚ)) (k : Nat), d1.length < k →
      ∃ e, nearest_neighbors d1 d2 k = .error e := by
    intro d1 d2 k hk
    unfold nearest_neighbors
    by_cases h1 : d1.length = 0
    · rw [if_pos h1]
      exact ⟨_, rfl⟩
    rw [if_neg h1]
    by_cases h2 : d2.length = 0
    · rw [if_pos h2]
      exact ⟨_, rfl⟩
    rw [if_neg h2]
    by_cases h3 : k = 0
    · rw [if_pos h3]
      exact ⟨_, rfl⟩
    rw [if_neg h3, if_pos hk]
    exact ⟨_, rfl⟩
  refine ⟨?_, ?_, ?_⟩
  · intro d1 d2 k hk
    obtain ⟨e, he⟩ := part1 d1 d2 k hk
    rw [he]
    rfl
  · intro fx lx fy ly k hk
    obtain ⟨e, he⟩ := part1 fx fy k hk
    unfold compute_unit_matches
    rw [he]
    rfl
  · intro fx lx fy ly k hlx hly hzx hzy hk hkx hky
    have hn1 : nearest_neighbors fx fy k =
        .ok (fy.map (fun q => kNearest fx q k)) := by
      unfold nearest_neighbors
      rw [if_neg (by omega : ¬fx.length = 0),
        if_neg (by omega : ¬fy.length = 0),
        if_neg (by omega : ¬k = 0),
        if_neg (by omega : ¬fx.length < k)]
    have hn2 : nearest_neighbors fy fx k =
        .ok (fx.map (fun q => kNearest fy q k)) := by
      unfold nearest_neighbors
      rw [if_neg (by omega : ¬fy.length = 0),
        if_neg (by omega : ¬fx.length = 0),
        if_neg (by omega : ¬k = 0),
        if_neg (by omega : ¬fy.length < k)]
    have hmxz := npMax_all_zero lx hlx hzx
    have hmyz := npMax_all_zero ly hly hzy
    have hceq := compute_unit_matches_eq hn1 hn2 hmyz hmxz
    rw [hceq]
    exact ⟨rfl, rfl⟩

/-- C1 witness: the amended behavior at concrete degenerate inputs: k = 2
with a single reference event raises through both functions, and an
all-zero single-label pair with k = 1 succeeds with no mutual matches. -/
theorem C1_input_shape_degeneracies_witness :
    (nearest_neighbors [[(0:ℚ)]] [[0]] 2).toOption = none ∧
    (compute_unit_matches [[(0:ℚ)]] [1] [[0]] [1] 2).toOption = none ∧
    ((compute_unit_matches [[(0:ℚ)]] [0] [[0]] [0] 1).toOption.getD
      dUMR).mutual_matches = [] :=
  ⟨C1_input_shape_degeneracies.1 [[(0:ℚ)]] [[0]] 2 (by decide),
   C1_input_shape_degeneracies.2.1 [[(0:ℚ)]] [1] [[0]] [1] 2 (by decide),
   (C1_input_shape_degeneracies.2.2 [[(0:ℚ)]] [0] [[0]] [0] 1
     (by decide) (by decide) (by decide) (by decide) (by decide) (by decide)
     (by decide)).2⟩

end Realtime512
